import Mathlib

/-!
Verification development for `mktestdocs/__main__.py`.

The Python module is shallowly embedded: its regular expressions are
translated into executable character-list recognisers, its `OrderedDict`
and `dict` values into ordered association lists, its executors and check
entry points into pure functions threading the module-level mutable state
explicitly, and its raised exceptions into an error type.  All documents
considered are ASCII, so the `\w` character class of the regexes is
modelled as `[a-zA-Z0-9_]`.
-/

namespace Mktestdocs

/-- The backtick character, U+0060. -/
def backquote : Char := Char.ofNat 96

/-- The single-quote character, U+0027. -/
def squote : Char := Char.ofNat 39

/-- A one-character string holding a single quote. -/
def sq : String := String.mk [squote]

/-- The character class `[ \t]`. -/
def isSpTab (c : Char) : Bool := c == ' ' || c == '\t'

/-- The character class `[a-zA-Z0-9_]`: `\w` restricted to ASCII. -/
def isWordChar (c : Char) : Bool := c.isAlpha || c.isDigit || c == '_'

/-- The identifier-continuation class `[a-zA-Z0-9_\-]` of `CLASS_RE` and `ID_RE`. -/
def isAttrIdentChar (c : Char) : Bool := c.isAlpha || c.isDigit || c == '_' || c == '-'

/-- The language-word class `[\w#.+-]` of `FENCED_BLOCK_RE`. -/
def isLangChar (c : Char) : Bool :=
  isWordChar c || c == '#' || c == '.' || c == '+' || c == '-'

/-- The quote alternatives `(?P<quot>"|')`. -/
def isQuoteCh (c : Char) : Bool := c == '"' || c == squote

/-- `class Attr(NamedTuple)`: the value (absent for class/id tokens) and the
token kind, one of `"class"`, `"id"`, `"keyval"`. -/
structure Attr where
  value : Option String
  type : String
deriving DecidableEq, Repr

/-- `class Fence(NamedTuple)`.  `attrs` models the `OrderedDict[str, Attr]` as
an ordered association list, `options` the options dict likewise. -/
structure Fence where
  fence : String := ""
  lang : Option String := none
  attrs : List (String × Attr) := []
  options : List (String × Option String) := []
  contents : String := ""
  raw : Option String := none
deriving DecidableEq, Repr

/-- Assignment `d[k] = v` on a Python (ordered) dict: an existing key keeps
its position and its stored value is replaced wholesale; a new key is
appended at the end. -/
def odInsert (k : String) (v : α) : List (String × α) → List (String × α)
  | [] => [(k, v)]
  | (k', v') :: t => if k' == k then (k, v) :: t else (k', v') :: odInsert k v t

/-- `CLASS_RE.match`: `[ \t]* \. (?P<class>[a-zA-Z][a-zA-Z0-9_\-]*) [ \t]*`,
anchored at the start.  Returns the captured identifier and the text after
the matched span. -/
def classReMatch (s : List Char) : Option (List Char × List Char) :=
  match s.dropWhile isSpTab with
  | '.' :: t =>
    match t with
    | c :: t2 =>
      if c.isAlpha then
        let ident := t2.takeWhile isAttrIdentChar
        some (c :: ident, (t2.dropWhile isAttrIdentChar).dropWhile isSpTab)
      else none
    | [] => none
  | _ => none

/-- `ID_RE.match`: like `CLASS_RE` with `#` in place of `.`. -/
def idReMatch (s : List Char) : Option (List Char × List Char) :=
  match s.dropWhile isSpTab with
  | '#' :: t =>
    match t with
    | c :: t2 =>
      if c.isAlpha then
        let ident := t2.takeWhile isAttrIdentChar
        some (c :: ident, (t2.dropWhile isAttrIdentChar).dropWhile isSpTab)
      else none
    | [] => none
  | _ => none

/-- `KEY_VAL_RE.match`:
`[ \t]* \b (?P<key>[a-zA-Z][a-zA-Z0-9_]*) (?:=(?P<quot>"|')(?P<value>.*?)(?P=quot))? [ \t]*`.
The `\b` is vacuous here: it sits after whitespace or at the start of the
string, and the key begins with a letter.  When `=` is present but no
complete quoted value follows, the optional group is skipped and the match
consumes the bare key, exactly as the regex does.  Returns the key, the
captured value (`none` when the optional group did not participate) and the
rest after the span. -/
def keyValReMatch (s : List Char) : Option (List Char × Option (List Char) × List Char) :=
  match s.dropWhile isSpTab with
  | c :: t =>
    if c.isAlpha then
      let keyT := t.takeWhile isWordChar
      let r1 := t.dropWhile isWordChar
      match r1 with
      | '=' :: q :: r2 =>
        if isQuoteCh q then
          let v := r2.takeWhile (· != q)
          match r2.dropWhile (· != q) with
          | _ :: r3 => some (c :: keyT, some v, r3.dropWhile isSpTab)
          | [] => some (c :: keyT, none, r1.dropWhile isSpTab)
        else some (c :: keyT, none, r1.dropWhile isSpTab)
      | _ => some (c :: keyT, none, r1.dropWhile isSpTab)
    else none
  | [] => none

/-- The loop of `Fence.attrs_from_str`, with explicit fuel (every accepted
token consumes at least one character, so fuel `length + 1` never runs
out): try `CLASS_RE`, then `ID_RE`, then `KEY_VAL_RE`; stop at the first
position where none matches or when the input is exhausted. -/
def attrsFromStrF : Nat → List Char → List (String × Attr) → List (String × Attr)
  | 0, _, acc => acc
  | _ + 1, [], acc => acc
  | fuel + 1, s, acc =>
    match classReMatch s with
    | some (name, r) => attrsFromStrF fuel r (odInsert (String.mk name) ⟨none, "class"⟩ acc)
    | none =>
      match idReMatch s with
      | some (name, r) => attrsFromStrF fuel r (odInsert (String.mk name) ⟨none, "id"⟩ acc)
      | none =>
        match keyValReMatch s with
        | some (key, v, r) =>
          attrsFromStrF fuel r (odInsert (String.mk key) ⟨v.map String.mk, "keyval"⟩ acc)
        | none => acc

/-- `Fence.attrs_from_str`. -/
def Fence.attrs_from_str (raw : String) : List (String × Attr) :=
  attrsFromStrF (raw.data.length + 1) raw.data []

/-- The loop of `Fence.options_from_str`, with explicit fuel. -/
def optionsFromStrF : Nat → List Char → List (String × Option String) → List (String × Option String)
  | 0, _, acc => acc
  | _ + 1, [], acc => acc
  | fuel + 1, s, acc =>
    match keyValReMatch s with
    | some (key, v, r) => optionsFromStrF fuel r (odInsert (String.mk key) (v.map String.mk) acc)
    | none => acc

/-- `Fence.options_from_str`. -/
def Fence.options_from_str (raw : String) : List (String × Option String) :=
  optionsFromStrF (raw.data.length + 1) raw.data []

/-- Split a character list at every newline, like Python `str.split("\n")`:
the result always has one more entry than there are newlines. -/
def splitNl : List Char → List (List Char)
  | [] => [[]]
  | c :: t =>
    if c == '\n' then [] :: splitNl t
    else
      match splitNl t with
      | h :: r => (c :: h) :: r
      | [] => [[c]]

/-- Rejoin what `splitNl` produced, like `"\n".join(...)`. -/
def joinNl (ls : List (List Char)) : List Char := (ls.intersperse ['\n']).flatten

/-- Longest common prefix of two character lists. -/
def lcp : List Char → List Char → List Char
  | a :: s, b :: t => if a == b then a :: lcp s t else []
  | _, _ => []

/-- `textwrap.dedent`: lines consisting solely of `[ \t]+` are first emptied;
the margin is the longest common prefix of the leading `[ \t]*` runs of the
remaining non-empty lines; that margin is then removed from the front of
every line that starts with it. -/
def dedent (text : String) : String :=
  let lines0 := splitNl text.data
  let lines := lines0.map (fun l => if !l.isEmpty && l.all isSpTab then [] else l)
  let indents := (lines.filter (fun l => !l.isEmpty)).map (fun l => l.takeWhile isSpTab)
  match indents with
  | [] => String.mk (joinNl lines)
  | i0 :: restI =>
    let margin := restI.foldl lcp i0
    if margin.isEmpty then String.mk (joinNl lines)
    else
      String.mk (joinNl (lines.map (fun l =>
        if l.take margin.length == margin then l.drop margin.length else l)))

/-- One key/value token of the `options` group of `FENCED_BLOCK_RE`:
`\b[a-zA-Z][a-zA-Z0-9_]*(?:=(?P<quot>"|').*?(?P=quot))?[ \t]*`.
`pw` records whether the character immediately before `s` is a word
character; when it is, the word boundary `\b` fails and no token can start
here.  Returns the consumed characters, the word-character status of the
position after them, and the rest.  The lazy `.*?` value runs to the first
matching quote, across newlines (`re.DOTALL`); an `=` not followed by a
complete quoted value makes the optional group fail, so only the bare key
and trailing blanks are consumed. -/
def parseToken (pw : Bool) (s : List Char) : Option (List Char × Bool × List Char) :=
  match s with
  | [] => none
  | c :: t =>
    if pw || !c.isAlpha then none
    else
      let keyT := t.takeWhile isWordChar
      let r1 := t.dropWhile isWordChar
      let bare : Option (List Char × Bool × List Char) :=
        let ws := r1.takeWhile isSpTab
        some (c :: keyT ++ ws, ws.isEmpty, r1.dropWhile isSpTab)
      match r1 with
      | '=' :: q :: r2 =>
        if isQuoteCh q then
          let v := r2.takeWhile (· != q)
          match r2.dropWhile (· != q) with
          | qc :: r3 =>
            let ws := r3.takeWhile isSpTab
            some ((c :: keyT) ++ '=' :: q :: (v ++ qc :: ws), false, r3.dropWhile isSpTab)
          | [] => bare
        else bare
      | _ => bare

/-- The `options` group of `FENCED_BLOCK_RE` followed by the mandatory `\n`:
consume a sequence of key/value tokens; succeed exactly when the position
reached is a newline (the group itself can match only token sequences, and
the pattern requires `\n` right after it, so any leftover text fails the
match).  Fuel `length + 1` suffices: each token is non-empty. -/
def optionsScanF : Nat → Bool → List Char → Option (List Char × List Char)
  | 0, _, _ => none
  | _ + 1, _, [] => none
  | fuel + 1, pw, s =>
    if s.head? == some '\n' then some ([], s)
    else
      match parseToken pw s with
      | some (tok, pw', r) =>
        match optionsScanF fuel pw' r with
        | some (opts, rest) => some (tok ++ opts, rest)
        | none => none
      | none => none

/-- All ways of splitting `t` as `lang ++ rest` with `lang` a run of
`isLangChar` characters, longest first — the backtracking order of the
greedy `(?P<lang>[\w#.+-]*)`. -/
def langSplits : List Char → List (List Char × List Char)
  | [] => [([], [])]
  | c :: t =>
    if isLangChar c then
      (langSplits t).map (fun p => (c :: p.1, p.2)) ++ [([], c :: t)]
    else [([], c :: t)]

/-- The parsed header of an opening fence line: the three captured strings
(`attrs`, `lang`, `options` — empty when the group did not participate),
the characters consumed up to and including the terminating newline, and
the remaining text (the block body onwards). -/
structure HeaderTail where
  attrsS : List Char
  langS : List Char
  optionsS : List Char
  hdr : List Char
  body : List Char
deriving DecidableEq, Repr

/-- One candidate of the `(\.?(?P<lang>[\w#.+-]*)[ ]*)?(?P<options>...)`
branch: `pre` is `['.']` when the optional leading dot was taken, `langS`
the language capture, `rest1` the remainder.  The `[ ]*` after the language
is consumed greedily; the word-boundary state before the options is a word
character exactly when no space was consumed and the language capture ends
in a word character. -/
def tryCand (pre langS rest1 : List Char) : Option HeaderTail :=
  let sp1 := rest1.takeWhile (· == ' ')
  let r2 := rest1.dropWhile (· == ' ')
  let pw := sp1.isEmpty && (match langS.getLast? with
    | some c => isWordChar c
    | none => false)
  match optionsScanF (r2.length + 1) pw r2 with
  | some (opts, rest) =>
    match rest with
    | '\n' :: body => some ⟨[], langS, opts, pre ++ langS ++ sp1 ++ opts ++ ['\n'], body⟩
    | _ => none
  | none => none

/-- The non-brace alternative of the header: try the dotted candidates
first (`\.?` is greedy), then the undotted ones, language captures longest
first; the group-skipped case coincides with the empty undotted capture. -/
def branchB (s : List Char) : Option HeaderTail :=
  let dotCands : List (List Char × List Char × List Char) :=
    match s with
    | c :: t => if c == '.' then (langSplits t).map (fun p => (['.'], p.1, p.2)) else []
    | [] => []
  let plainCands : List (List Char × List Char × List Char) :=
    (langSplits s).map (fun p => (([] : List Char), p.1, p.2))
  (dotCands ++ plainCands).findSome? (fun c => tryCand c.1 c.2.1 c.2.2)

/-- The header after the opening fence run and its `[ ]*`: either the brace
form `\{(?P<attrs>[^\}\n]*)\}` followed immediately by the newline, or the
language/options form.  A `{` that is not completed on the line fails both
alternatives (the language/options branch cannot consume `{`), so the whole
candidate match fails. -/
def headerTail (s : List Char) : Option HeaderTail :=
  match s with
  | c :: t =>
    if c == Char.ofNat 123 then
      let interior := t.takeWhile (fun d => !(d == Char.ofNat 125) && !(d == '\n'))
      match t.dropWhile (fun d => !(d == Char.ofNat 125) && !(d == '\n')) with
      | b :: nl :: body =>
        if b == Char.ofNat 125 && nl == '\n' then
          some ⟨interior, [], [], c :: interior ++ [b, nl], body⟩
        else none
      | _ => none
    else branchB s
  | [] => branchB s

/-- Search the body for the closing line `(?P=fence)[ ]*$`, lazily (the
first line that qualifies wins, matching the lazy `(?P<code>.*?)`).  The
backreference `(?P=fence)` matches exactly the opening run — a longer run
of the same character does not qualify, because the character after the
run must be a space or the end of the line.  Returns the code (everything
before the closing line), the consumed closer (run plus trailing spaces),
and the rest (empty, or starting with the newline before which the
`$` matched). -/
def findCloserF (run : List Char) : Nat → List Char → Option (List Char × List Char × List Char)
  | 0, _ => none
  | fuel + 1, s =>
    let here : Option (List Char × List Char × List Char) :=
      if s.take run.length == run then
        let after := s.drop run.length
        let ws := after.takeWhile (· == ' ')
        let r := after.dropWhile (· == ' ')
        if r.isEmpty || r.head? == some '\n' then some ([], run ++ ws, r) else none
      else none
    match here with
    | some x => some x
    | none =>
      let line := s.takeWhile (· != '\n')
      match s.dropWhile (· != '\n') with
      | '\n' :: t =>
        match findCloserF run fuel t with
        | some (code, cl, rest) => some (line ++ '\n' :: code, cl, rest)
        | none => none
      | _ => none

/-- The groups of one `FENCED_BLOCK_RE` match: the opening run (`fence`),
the three header captures, the body (`code`), the whole matched text
(`raw`) and the unconsumed input after the match. -/
structure FMatch where
  fence : List Char
  attrsS : List Char
  langS : List Char
  optionsS : List Char
  code : List Char
  raw : List Char
  rest : List Char
deriving DecidableEq, Repr

/-- Attempt `FENCED_BLOCK_RE` at a line start: `^(?:~{3,}|` three-or-more
backticks`)` (the run is greedy and backtracking it never helps, since the
character after a shortened run would be a fence character, which no
alternative of the header accepts), then `[ ]*`, the header, the lazily
matched body and the closing line. -/
def matchFence (s : List Char) : Option FMatch :=
  match s with
  | [] => none
  | c :: _ =>
    if c == backquote || c == '~' then
      let run := s.takeWhile (· == c)
      if 3 ≤ run.length then
        let s1 := s.dropWhile (· == c)
        let sp0 := s1.takeWhile (· == ' ')
        let s2 := s1.dropWhile (· == ' ')
        match headerTail s2 with
        | some ht =>
          match findCloserF run (ht.body.length + 1) ht.body with
          | some (code, closer, rest) =>
            some ⟨run, ht.attrsS, ht.langS, ht.optionsS, code,
                  run ++ sp0 ++ ht.hdr ++ code ++ closer, rest⟩
          | none => none
        | none => none
      else none
    else none

/-- Drop the current line, up to and including its newline. -/
def dropLine (s : List Char) : List Char := ((s.dropWhile (· != '\n')).drop 1 : List Char)

/-- `FENCED_BLOCK_RE.findall`: scan line starts top to bottom (the pattern
begins with `^`, so no other position can match); after a match, resume
after the newline before which the match ended; after a failure, at the
next line start. -/
def scanFencesF : Nat → List Char → List FMatch
  | 0, _ => []
  | _ + 1, [] => []
  | fuel + 1, s =>
    match matchFence s with
    | some fm => fm :: scanFencesF fuel (dropLine fm.rest)
    | none => scanFencesF fuel (dropLine s)

/-- All matches of `FENCED_BLOCK_RE` in `s`, in order of appearance. -/
def scanFences (s : List Char) : List FMatch := scanFencesF (s.length + 1) s

/-- `Fence.from_re_groups`: the `FMatch` record plays the role of the match
group tuple (`fence` = groups[1], `attrs` = groups[4], `lang` = groups[6],
`options` = groups[7], `code` = groups[9], `raw` = groups[0]; a group that
did not participate is the empty string, which Python's `or` treats as
absent). -/
def Fence.from_re_groups (g : FMatch) : Fence :=
  let attrs := Fence.attrs_from_str (String.mk g.attrsS)
  let langA : Option String :=
    match attrs.head? with
    | some (k, a) => if a.type == "class" then some k else none
    | none => none
  let lang : Option String := if g.langS.isEmpty then langA else some (String.mk g.langS)
  { fence := String.mk g.fence, lang := lang, attrs := attrs,
    options := Fence.options_from_str (String.mk g.optionsS),
    contents := dedent (String.mk g.code), raw := some (String.mk g.raw) }

/-- `grab_fences` (the later, surviving definition at line 397). -/
def grab_fences (source : String) : List Fence :=
  (scanFences source.data).map Fence.from_re_groups

/-- `grab_code_blocks` as redefined at line 310: the keyword arguments
(including `lang`) are accepted and ignored, and every fence is returned. -/
def grab_code_blocks (docstring : String) (_lang : String := "python") : List Fence :=
  grab_fences docstring

/-- A Python runtime value as far as the executors inspect their argument:
either a `Fence` record or a plain string (the latter is what
`check_raw_file_full` actually passes). -/
inductive PyVal where
  | strv (s : String)
  | fenceV (f : Fence)
deriving DecidableEq, Repr

/-- The exceptions the embedded code can raise. -/
inductive PyError where
  | lookupError (msg : String)
  | attributeError (msg : String)
  | nameError (msg : String)
  | typeError (msg : String)
  | pySyntaxError
  | fileNotFoundError (fname : String)
  | assertionError
  | calledProcessError (returncode : Int)
deriving DecidableEq, Repr

/-- Observable side effects of an executor run. -/
inductive Effect where
  | fileWrite (fname : String) (contents : String)
  | printOut (s : String)
deriving DecidableEq, Repr

/-- A value living in an `exec` namespace. -/
inductive PyObj where
  | intV (n : Int)
  | strV (s : String)
deriving DecidableEq, Repr

/-- An `exec` globals dict. -/
abbrev Namespace := List (String × PyObj)

/-- One statement of the straight-line Python fragment the documents use. -/
inductive PyStmt where
  | assign (name : String) (n : Int)
  | ref (name : String)
deriving DecidableEq, Repr

/-- Decimal digits to a natural number. -/
def digitsToNat (l : List Char) : Nat :=
  l.foldl (fun a c => a * 10 + (c.toNat - 48)) 0

/-- Parse one source line of the fragment: `some none` for a blank line,
`some (some st)` for a recognised statement, `none` for anything the
fragment does not cover (a syntax error in the model). -/
def parsePyLine (l : List Char) : Option (Option PyStmt) :=
  if l.all isSpTab then some none
  else
    match l with
    | c :: t =>
      if c.isAlpha || c == '_' then
        let identT := t.takeWhile isWordChar
        let name := String.mk (c :: identT)
        match (t.dropWhile isWordChar).dropWhile (· == ' ') with
        | [] => some (some (.ref name))
        | '=' :: r2 =>
          let v := r2.dropWhile (· == ' ')
          if !v.isEmpty && v.all Char.isDigit then
            some (some (.assign name (Int.ofNat (digitsToNat v))))
          else none
        | _ => none
      else none
    | [] => some none

/-- Look a name up in a namespace. -/
def nsLookup (ns : Namespace) (k : String) : Option PyObj :=
  match ns.find? (fun p => p.1 == k) with
  | some p => some p.2
  | none => none

/-- Run one statement: an assignment binds via dict assignment; evaluating
an unbound name raises `NameError: name '...' is not defined`. -/
def runStmt (ns : Namespace) : PyStmt → Except PyError Namespace
  | .assign x n => .ok (odInsert x (.intV n) ns)
  | .ref x =>
    match nsLookup ns x with
    | some _ => .ok ns
    | none => .error (.nameError ("name " ++ sq ++ x ++ sq ++ " is not defined"))

/-- Modelled from the behaviour of the CPython builtin `exec` on the
straight-line fragment of Python that the documents in this development
use: each line is blank, an assignment of an integer literal to a name, or
a bare name whose evaluation raises `NameError` when unbound.  The globals
dict is mutated in place, so the namespace reached so far is returned even
when a later line raises. -/
def pyExec (src : String) (ns : Namespace) : Namespace × Option PyError :=
  (splitNl src.data).foldl
    (fun acc l =>
      match acc with
      | (g, some e) => (g, some e)
      | (g, none) =>
        match parsePyLine l with
        | some (some st) =>
          match runStmt g st with
          | .ok g' => (g', none)
          | .error e => (g, some e)
        | some none => (g, none)
        | none => (g, some .pySyntaxError))
    (ns, none)

/-- Module-level mutable state: the one dict object created when
`def exec_python_fence(fence, globals: Dict = {})` is elaborated.  A Python
default argument is evaluated once, at function definition time, so every
call that omits `globals` shares (and mutates) this same dict. -/
structure ModState where
  pyFenceDefault : Namespace
deriving DecidableEq, Repr

/-- The state right after the module body has run: the default dict is
still empty. -/
def initState : ModState := ⟨[]⟩

/-- Message of the `AttributeError` raised when attribute `attr` is read
off a `str` value. -/
def strAttrErr (attr : String) : String :=
  sq ++ "str" ++ sq ++ " object has no attribute " ++ sq ++ attr ++ sq

/-- Python truthiness of an optional string: `None` and `""` are falsy. -/
def truthyStrOpt : Option String → Bool
  | some s => !s.isEmpty
  | none => false

/-- `fence.options.get("title", None) or fence.attrs.get("title", [None])[0]`:
the options value when it is truthy, otherwise the `value` field of the
`title` attribute (an `Attr` found by `.get` has its first component taken
by `[0]`), otherwise `None` (`[None][0]`). -/
def execFileFname (f : Fence) : Option String :=
  let fromOptions : Option String := Option.join (f.options.lookup "title")
  if truthyStrOpt fromOptions then fromOptions
  else
    match f.attrs.lookup "title" with
    | some a => a.value
    | none => none

/-- Message of `open(None, "w")`. -/
def openNoneMsg : String := "expected str, bytes or os.PathLike object, not NoneType"

/-- `exec_file_fence` (line 409): resolve the destination name and write the
fence contents verbatim.  A `str` argument fails on the first attribute
access (`fence.options`); a missing destination makes `open(None, "w")`
raise `TypeError`; an empty name makes `open` raise `FileNotFoundError`. -/
def exec_file_fence (v : PyVal) : List Effect × Except PyError Unit :=
  match v with
  | .strv _ => ([], .error (.attributeError (strAttrErr "options")))
  | .fenceV f =>
    match execFileFname f with
    | none => ([], .error (.typeError openNoneMsg))
    | some fname =>
      if fname.isEmpty then ([], .error (.fileNotFoundError fname))
      else ([.fileWrite fname f.contents], .ok ())

/-- The `if fence.options.get("title", False) or fence.attrs.get("title", False)`
guard of `exec_python_fence`: an options entry is truthy when its value is a
non-empty string; an `Attr` named tuple is always truthy. -/
def pyFenceTitleGuard (f : Fence) : Bool :=
  truthyStrOpt (Option.join (f.options.lookup "title")) || (f.attrs.lookup "title").isSome

/-- `exec_python_fence` (line 425).  When the caller omits `globals`, the
shared default dict held in `ModState` is used and the mutated dict is
stored back; when a dict is passed, that dict is mutated and the default is
untouched.  On an exception from `exec`, the fence source is printed and
the exception re-raised. -/
def exec_python_fence (st : ModState) (v : PyVal) (globalsArg : Option Namespace) :
    List Effect × Except PyError (Namespace × ModState) :=
  match v with
  | .strv _ => ([], .error (.attributeError (strAttrErr "options")))
  | .fenceV f =>
    match (if pyFenceTitleGuard f then exec_file_fence (.fenceV f) else ([], .ok ())) with
    | (effs, .error e) => (effs, .error e)
    | (effs, .ok ()) =>
      let g := globalsArg.getD st.pyFenceDefault
      let (g', errOpt) := pyExec f.contents g
      let st' := if globalsArg.isSome then st else ⟨g'⟩
      match errOpt with
      | none => (effs, .ok (g', st'))
      | some e => (effs ++ [.printOut f.contents], .error e)

/-- `exec_python` (line 226, the first-round executor): when no globals are
passed a fresh dict `{"__MODULE__": "__main__"}` is created for this call
only. -/
def exec_python (v : PyVal) (globalsArg : Option Namespace) :
    List Effect × Except PyError Namespace :=
  match v with
  | .strv _ => ([], .error (.attributeError (strAttrErr "contents")))
  | .fenceV f =>
    let g := globalsArg.getD [("__MODULE__", .strV "__main__")]
    let (g', errOpt) := pyExec f.contents g
    match errOpt with
    | none => ([], .ok g')
    | some e => ([.printOut f.contents], .error e)

/-- `exec_bash` (line 209, first round): run the contents in a strict-mode
subshell via the ambient `shell` oracle (exit code, stdout); a nonzero exit
prints the source and raises `CalledProcessError`. -/
def exec_bash (shell : String → Int × String) (v : PyVal) :
    List Effect × Except PyError Unit :=
  match v with
  | .strv _ => ([], .error (.attributeError (strAttrErr "contents")))
  | .fenceV f =>
    let (code, _) := shell f.contents
    if code == 0 then ([], .ok ())
    else ([.printOut f.contents], .error (.calledProcessError code))

/-- Python `str.splitlines()` for newline-separated text: like splitting on
`"\n"` but without a final empty piece for a trailing newline. -/
def splitlinesPy (s : String) : List String :=
  let ps := splitNl s.data
  (match ps.getLast? with
   | some [] => ps.dropLast
   | _ => ps).map String.mk

/-- `exec_bash_fence` (line 445): split the contents on the `"$ "` prompt
marker into (command, expected stdout) pairs; run each command through the
`shell` oracle with `check=True` (nonzero exit raises `CalledProcessError`)
and assert that the stripped captured stdout equals the stripped expected
text. -/
def exec_bash_fence (shell : String → Int × String) (v : PyVal) :
    List Effect × Except PyError Unit :=
  match v with
  | .strv _ => ([], .error (.attributeError (strAttrErr "contents")))
  | .fenceV f =>
    let pieces := (f.contents.splitOn ("$" ++ " ")).filter (fun p => !p.isEmpty)
    let commands := pieces.map (fun p =>
      let ls := splitlinesPy p
      (ls.headD "", String.intercalate "\n" (ls.drop 1)))
    commands.foldl
      (fun acc cmd =>
        match acc with
        | (effs, Except.error e) => (effs, .error e)
        | (effs, Except.ok ()) =>
          let (code, out) := shell cmd.1
          if code != 0 then (effs, .error (.calledProcessError code))
          else if out.trim == cmd.2.trim then (effs, .ok ())
          else (effs, .error .assertionError))
      (([] : List Effect), (.ok () : Except PyError Unit))

/-- The callables stored in the executor registry. -/
inductive Executor where
  | execBashV1
  | execPythonV1
  | execFileFenceE
  | execPythonFenceE
  | execBashFenceE
deriving DecidableEq, Repr

/-- The registry `_executors` is a plain dict from tag to callable. -/
abbrev Registry := List (String × Executor)

/-- `register_executor(lang, executor)`: insert or replace. -/
def register_executor (lang : String) (ex : Executor) (d : Registry) : Registry :=
  odInsert lang ex d

/-- The registry built by lines 196 to 243: `bash`, `""` and `python`. -/
def executorsFirstRound : Registry :=
  register_executor "python" .execPythonV1
    (register_executor "" .execPythonV1
      (register_executor "bash" .execBashV1 []))

/-- The module-level `_executors` dict once the whole module body has run:
line 384 rebinds the name to a fresh empty dict — discarding the first
round, including the empty-string tag — and lines 420 to 464 register the
final set `yaml`, `yml`, `toml`, `python`, `py`, `bash`. -/
def _executors : Registry :=
  register_executor "bash" .execBashFenceE
    (register_executor "py" .execPythonFenceE
      (register_executor "python" .execPythonFenceE
        (register_executor "toml" .execFileFenceE
          (register_executor "yml" .execFileFenceE
            (register_executor "yaml" .execFileFenceE [])))))

/-- Call a registered executor with the single argument the check entry
points pass, threading the module state. -/
def runExecutor (shell : String → Int × String) (ex : Executor) (st : ModState) (v : PyVal) :
    List Effect × Except PyError ModState :=
  match ex with
  | .execPythonFenceE =>
    match exec_python_fence st v none with
    | (effs, .ok (_, st')) => (effs, .ok st')
    | (effs, .error e) => (effs, .error e)
  | .execFileFenceE =>
    match exec_file_fence v with
    | (effs, .ok ()) => (effs, .ok st)
    | (effs, .error e) => (effs, .error e)
  | .execBashFenceE =>
    match exec_bash_fence shell v with
    | (effs, .ok ()) => (effs, .ok st)
    | (effs, .error e) => (effs, .error e)
  | .execPythonV1 =>
    match exec_python v none with
    | (effs, .ok _) => (effs, .ok st)
    | (effs, .error e) => (effs, .error e)
  | .execBashV1 =>
    match exec_bash shell v with
    | (effs, .ok ()) => (effs, .ok st)
    | (effs, .error e) => (effs, .error e)

/-- The message of the `LookupError` raised by the check entry points. -/
def unsupportedMsg (lang : String) : String :=
  lang ++ " is not a supported language to check\n\tHint: you can add support for any language by using register_executor"

/-- The dispatch loop shared by `check_docstring` and `check_raw_string`:
each fence in order, fail-fast on the first exception. -/
def runFences (shell : String → Int × String) (ex : Executor) :
    List Fence → ModState → List Effect × Except PyError ModState
  | [], st => ([], .ok st)
  | f :: fs, st =>
    match runExecutor shell ex st (.fenceV f) with
    | (effs, .ok st') =>
      let (effs2, r) := runFences shell ex fs st'
      (effs ++ effs2, r)
    | (effs, .error e) => (effs, .error e)

/-- `check_docstring(obj, lang="")` (line 313).  The only use of `obj` is
`obj.__doc__`, so the model takes the docstring itself. -/
def check_docstring (shell : String → Int × String) (doc : String) (lang : String := "")
    (st : ModState) : List Effect × Except PyError ModState :=
  match _executors.lookup lang with
  | none => ([], .error (.lookupError (unsupportedMsg lang)))
  | some ex => runFences shell ex (grab_code_blocks doc lang) st

/-- `check_raw_string(raw, lang="python")` (line 327). -/
def check_raw_string (shell : String → Int × String) (raw : String)
    (lang : String := "python") (st : ModState) : List Effect × Except PyError ModState :=
  match _executors.lookup lang with
  | none => ([], .error (.lookupError (unsupportedMsg lang)))
  | some ex => runFences shell ex (grab_code_blocks raw lang) st

/-- CPython `repr` of one character of an ASCII string quoted with `qc`. -/
def pyCharEscape (qc c : Char) : String :=
  if c == '\\' then "\\\\"
  else if c == '\n' then "\\n"
  else if c == '\r' then "\\r"
  else if c == '\t' then "\\t"
  else if c == qc then "\\" ++ String.mk [c]
  else String.mk [c]

/-- CPython `repr` of an ASCII string: single quotes, unless the string
contains a single quote and no double quote. -/
def reprStr (s : String) : String :=
  let hasSq := s.data.any (· == squote)
  let hasDq := s.data.any (· == '"')
  let qc := if hasSq && !hasDq then '"' else squote
  String.mk [qc] ++ String.join (s.data.map (pyCharEscape qc)) ++ String.mk [qc]

/-- `repr` of an optional string (`None` when absent). -/
def reprOptStr : Option String → String
  | none => "None"
  | some s => reprStr s

/-- `repr` of an `Attr` named tuple. -/
def reprAttr (a : Attr) : String :=
  "Attr(value=" ++ reprOptStr a.value ++ ", type=" ++ reprStr a.type ++ ")"

/-- `repr` of the attrs `OrderedDict`. -/
def reprAttrs (l : List (String × Attr)) : String :=
  "OrderedDict([" ++
    String.intercalate ", "
      (l.map (fun p => "(" ++ reprStr p.1 ++ ", " ++ reprAttr p.2 ++ ")")) ++ "])"

/-- `repr` of the options dict. -/
def reprOptions (l : List (String × Option String)) : String :=
  "\x7b" ++
    String.intercalate ", "
      (l.map (fun p => reprStr p.1 ++ ": " ++ reprOptStr p.2)) ++ "\x7d"

/-- `str` of a `Fence` named tuple, as interpolated by the f-string in
`check_raw_file_full`. -/
def reprFence (f : Fence) : String :=
  "Fence(fence=" ++ reprStr f.fence ++ ", lang=" ++ reprOptStr f.lang ++
    ", attrs=" ++ reprAttrs f.attrs ++ ", options=" ++ reprOptions f.options ++
    ", contents=" ++ reprStr f.contents ++ ", raw=" ++ reprOptStr f.raw ++ ")"

/-- `check_raw_file_full(raw, lang="python")` (line 341): the extracted
`Fence` records are folded into one string through
`all_code = f"{all_code}\n{b}"` — interpolating the `str` of each record —
and that single string is passed to the executor. -/
def check_raw_file_full (shell : String → Int × String) (raw : String)
    (lang : String := "python") (st : ModState) : List Effect × Except PyError ModState :=
  match _executors.lookup lang with
  | none => ([], .error (.lookupError (unsupportedMsg lang)))
  | some ex =>
    let all_code := (grab_code_blocks raw lang).foldl
      (fun acc b => acc ++ "\n" ++ reprFence b) ""
    runExecutor shell ex st (.strv all_code)

/-- `check_md_file(fpath, memory=False, lang="python")` (line 354): reading
the file is an external collaborator's job, so the model takes the file
text directly. -/
def check_md_file (shell : String → Int × String) (text : String)
    (memory : Bool := false) (lang : String := "python") (st : ModState) :
    List Effect × Except PyError ModState :=
  if !memory then check_raw_string shell text lang st
  else check_raw_file_full shell text lang st

/-- Message of the `AttributeError` raised by reading `.groups()` off the
`None` returned by a failed anchored match. -/
def noneGroupsMsg : String :=
  sq ++ "NoneType" ++ sq ++ " object has no attribute " ++ sq ++ "groups" ++ sq

/-- `Fence.from_str` (line 181): `FENCED_BLOCK_RE.match` is anchored at the
very first character; on failure `.groups()` is read off `None`, raising
`AttributeError`. -/
def Fence.from_str (raw : String) : Except PyError Fence :=
  match matchFence raw.data with
  | some g => .ok (Fence.from_re_groups g)
  | none => .error (.attributeError noneGroupsMsg)

/-- A shell oracle for runs that never reach a bash executor. -/
def shell0 : String → Int × String := fun _ => (0, "")

/-- Substring test on character lists. -/
def containsSub (needle : List Char) : List Char → Bool
  | [] => needle.isEmpty
  | c :: t => (needle == (c :: t).take needle.length) || containsSub needle t

/-- The constant tail of the unsupported-language message, up to the name of
the registration entry point. -/
def hintHead : String :=
  " is not a supported language to check\n\tHint: you can add support for any language by using "

/-- A document with a python fence that binds `a` followed by a python fence
that merely evaluates `a`. -/
def c2doc : String := "```python\na = 1\n```\n\n```python\na\n```\n"

/-- A document whose single python fence evaluates the bare name `a`. -/
def useOnlyDoc : String := "```python\na\n```\n"

/-- A document whose single python fence binds `a`. -/
def assignOnlyDoc : String := "```python\na = 1\n```\n"

/-- A fence with contents but neither a `title` option nor a `title`
attribute. -/
def noTitleFence : Fence := { contents := "a: 1\n" }

/-- A fence carrying a truthy `title` option. -/
def titledFence : Fence := { contents := "a: 1\n", options := [("title", some "out.yaml")] }

/-- A minimal well-formed document: a bare three-backtick block. -/
def docw : String := "```\nx\n```\n"

/-- The match the scanner produces on `docw`. -/
def fence4w : FMatch :=
  { fence := "```".data, attrsS := [], langS := [], optionsS := [],
    code := "x\n".data, raw := "```\nx\n```".data, rest := "\n".data }

/-- A one-fence python document used as a round-trip witness. -/
def docw7 : String := "```python\nx = 1\n```\n"

/-- The Fence record extracted from `docw7`. -/
def fencew7 : Fence :=
  { fence := "```", lang := some "python", attrs := [], options := [],
    contents := "x = 1\n", raw := some "```python\nx = 1\n```" }

theorem bareTok_eq (c : Char) (t : List Char) :
    (c :: (t.takeWhile isWordChar ++ (t.dropWhile isWordChar).takeWhile isSpTab)) ++
      (t.dropWhile isWordChar).dropWhile isSpTab = c :: t := by
  simp [List.append_assoc, List.takeWhile_append_dropWhile]

theorem parseToken_split {pw : Bool} {s tok r : List Char} {pw' : Bool}
    (h : parseToken pw s = some (tok, pw', r)) : s = tok ++ r := by
  match s with
  | [] => simp [parseToken] at h
  | c :: t =>
    simp only [parseToken] at h
    split at h
    · exact absurd h (by simp)
    · split at h
      · rename_i r1 q r2 heq
        split at h
        · split at h
          · rename_i hq qc r3 hdw
            simp only [Option.some.injEq, Prod.mk.injEq] at h
            obtain ⟨htok, _, hr⟩ := h
            subst htok hr
            have h2 : t = t.takeWhile isWordChar ++ ('=' :: q :: r2) := by
              conv_lhs => rw [← List.takeWhile_append_dropWhile isWordChar t]
              rw [heq]
            have h3 : r2 = r2.takeWhile (· != q) ++ (qc :: r3) := by
              conv_lhs => rw [← List.takeWhile_append_dropWhile (· != q) r2]
              rw [hdw]
            conv_lhs => rw [h2, h3]
            simp [List.append_assoc, List.takeWhile_append_dropWhile]
          · simp only [Option.some.injEq, Prod.mk.injEq] at h
            obtain ⟨htok, _, hr⟩ := h
            subst htok hr
            exact (bareTok_eq c t).symm
        · simp only [Option.some.injEq, Prod.mk.injEq] at h
          obtain ⟨htok, _, hr⟩ := h
          subst htok hr
          exact (bareTok_eq c t).symm
      · simp only [Option.some.injEq, Prod.mk.injEq] at h
        obtain ⟨htok, _, hr⟩ := h
        subst htok hr
        exact (bareTok_eq c t).symm

/-- A successful options scan splits its input. -/
theorem optionsScanF_split :
    ∀ {fuel : Nat} {pw : Bool} {s o r : List Char},
      optionsScanF fuel pw s = some (o, r) → s = o ++ r
  | 0, _, _, _, _, h => by simp [optionsScanF] at h
  | fuel + 1, pw, s, o, r, h => by
    match s with
    | [] => simp [optionsScanF] at h
    | c :: t =>
      simp only [optionsScanF] at h
      split at h
      · simp only [Option.some.injEq, Prod.mk.injEq] at h
        obtain ⟨ho, hr⟩ := h
        subst ho hr
        rfl
      · split at h
        · rename_i tok pw2 r2 htok
          split at h
          · rename_i o2 rest2 hrec
            simp only [Option.some.injEq, Prod.mk.injEq] at h
            obtain ⟨ho, hr⟩ := h
            subst ho hr
            have h1 := parseToken_split htok
            have h2 := optionsScanF_split hrec
            rw [h1, h2, List.append_assoc]
          · exact absurd h (by simp)
        · exact absurd h (by simp)

/-- Every language-split candidate is a genuine split of the input. -/
theorem langSplits_split :
    ∀ {t : List Char} {p : List Char × List Char}, p ∈ langSplits t → t = p.1 ++ p.2
  | [], p, h => by
    simp [langSplits] at h
    subst h
    rfl
  | c :: t, p, h => by
    simp only [langSplits] at h
    split at h
    · rw [List.mem_append] at h
      rcases h with h | h
      · rw [List.mem_map] at h
        obtain ⟨q, hq, hpq⟩ := h
        have := langSplits_split hq
        subst hpq
        simp [← this]
      · simp at h
        subst h
        rfl
    · simp at h
      subst h
      rfl

/-- A successful candidate try splits the candidate's input into consumed
header and body. -/
theorem tryCand_split {pre lg r1 : List Char} {ht : HeaderTail}
    (h : tryCand pre lg r1 = some ht) : pre ++ lg ++ r1 = ht.hdr ++ ht.body := by
  simp only [tryCand] at h
  split at h
  · rename_i o rest hscan
    split at h
    · rename_i body
      simp only [Option.some.injEq] at h
      subst h
      have h1 := optionsScanF_split hscan
      simp only
      have h2 : r1 = r1.takeWhile (· == ' ') ++ (o ++ '\n' :: body) := by
        conv_lhs => rw [← List.takeWhile_append_dropWhile (· == ' ') r1]
        rw [h1]
      conv_lhs => rw [h2]
      simp [List.append_assoc]
    · exact absurd h (by simp)
  · exact absurd h (by simp)

/-- A successful header parse splits its input into header and body. -/
theorem headerTail_split {s : List Char} {ht : HeaderTail}
    (h : headerTail s = some ht) : s = ht.hdr ++ ht.body := by
  have hbb : ∀ (s' : List Char), branchB s' = some ht → s' = ht.hdr ++ ht.body := by
    intro s' hb
    simp only [branchB] at hb
    obtain ⟨cand, hmem, hcand⟩ := List.exists_of_findSome?_eq_some hb
    rw [List.mem_append] at hmem
    have hsplit : s' = cand.1 ++ cand.2.1 ++ cand.2.2 := by
      rcases hmem with hmem | hmem
      · split at hmem
        · rename_i c t
          split at hmem
          · rename_i hc
            rw [List.mem_map] at hmem
            obtain ⟨q, hq, hpq⟩ := hmem
            have hqs := langSplits_split hq
            have : c = '.' := by exact beq_iff_eq.mp hc
            subst this
            rw [← hpq]
            simp [← hqs]
          · simp at hmem
        · simp at hmem
      · rw [List.mem_map] at hmem
        obtain ⟨q, hq, hpq⟩ := hmem
        have hqs := langSplits_split hq
        rw [← hpq]
        simpa using hqs
    rw [hsplit]
    exact tryCand_split hcand
  match s with
  | [] =>
    simp only [headerTail] at h
    exact hbb [] h
  | c :: t =>
    simp only [headerTail] at h
    split at h
    · rename_i hc
      split at h
      · rename_i b nl body heq
        split at h
        · rename_i hbn
          simp only [Option.some.injEq] at h
          subst h
          simp only
          have hc' : c = Char.ofNat 123 := by exact beq_iff_eq.mp hc
          have h2 : t = t.takeWhile (fun d => !(d == Char.ofNat 125) && !(d == '\n')) ++
              (b :: nl :: body) := by
            conv_lhs =>
              rw [← List.takeWhile_append_dropWhile
                (fun d => !(d == Char.ofNat 125) && !(d == '\n')) t]
            rw [heq]
          subst hc'
          conv_lhs => rw [h2]
          simp
        · exact absurd h (by simp)
      · exact absurd h (by simp)
    · exact hbb _ h


/-- A successful closer search splits the body into code, closer and rest. -/
theorem findCloserF_split {run : List Char} :
    ∀ {fuel : Nat} {s code cl rest : List Char},
      findCloserF run fuel s = some (code, cl, rest) → s = code ++ cl ++ rest
  | 0, _, _, _, _, h => by simp [findCloserF] at h
  | fuel + 1, s, code, cl, rest, h => by
    simp only [findCloserF] at h
    split at h
    · rename_i x hhere
      split at hhere
      · rename_i htake
        split at hhere
        · simp only [Option.some.injEq] at hhere
          subst hhere
          simp only [Option.some.injEq, Prod.mk.injEq] at h
          obtain ⟨hcode, hcl, hrest⟩ := h
          subst hcode hcl hrest
          have h1 : s = run ++ s.drop run.length := by
            conv_lhs => rw [← List.take_append_drop run.length s]
            rw [beq_iff_eq.mp htake]
          conv_lhs => rw [h1]
          simp [List.append_assoc, List.takeWhile_append_dropWhile]
        · simp at hhere
      · simp at hhere
    · split at h
      · rename_i t heq
        split at h
        · rename_i code2 cl2 rest2 hrec
          simp only [Option.some.injEq, Prod.mk.injEq] at h
          obtain ⟨hcode, hcl, hrest⟩ := h
          subst hcode hcl hrest
          have h1 := findCloserF_split hrec
          have h2 : s = s.takeWhile (· != '\n') ++ ('\n' :: t) := by
            conv_lhs => rw [← List.takeWhile_append_dropWhile (· != '\n') s]
            rw [heq]
          conv_lhs => rw [h2, h1]
          simp [List.append_assoc]
        · exact absurd h (by simp)
      · exact absurd h (by simp)

/-- The closer a successful search returns is exactly the opening run
followed by spaces. -/
theorem findCloserF_closer {run : List Char} :
    ∀ {fuel : Nat} {s code cl rest : List Char},
      findCloserF run fuel s = some (code, cl, rest) →
      ∃ sp, (∀ x ∈ sp, x = ' ') ∧ cl = run ++ sp
  | 0, _, _, _, _, h => by simp [findCloserF] at h
  | fuel + 1, s, code, cl, rest, h => by
    simp only [findCloserF] at h
    split at h
    · rename_i x hhere
      split at hhere
      · split at hhere
        · simp only [Option.some.injEq] at hhere
          subst hhere
          simp only [Option.some.injEq, Prod.mk.injEq] at h
          obtain ⟨hcode, hcl, hrest⟩ := h
          subst hcl
          refine ⟨_, ?_, rfl⟩
          intro x hx
          have := List.mem_takeWhile_imp hx
          exact beq_iff_eq.mp this
        · simp at hhere
      · simp at hhere
    · split at h
      · split at h
        · rename_i hrec
          simp only [Option.some.injEq, Prod.mk.injEq] at h
          obtain ⟨hcode, hcl, hrest⟩ := h
          subst hcl
          exact findCloserF_closer hrec
        · exact absurd h (by simp)
      · exact absurd h (by simp)

/-- A successful fence match splits its input into the raw matched text and
the rest. -/
theorem matchFence_split {s : List Char} {fm : FMatch}
    (h : matchFence s = some fm) : s = fm.raw ++ fm.rest := by
  match s with
  | [] => simp [matchFence] at h
  | c :: t =>
    simp only [matchFence] at h
    split at h
    · split at h
      · rename_i hfc hlen
        split at h
        · rename_i ht hht
          split at h
          · rename_i code closer rest hfc2
            simp only [Option.some.injEq] at h
            subst h
            simp only
            have h1 : (c :: t) = (c :: t).takeWhile (· == c) ++ (c :: t).dropWhile (· == c) :=
              (List.takeWhile_append_dropWhile _ _).symm
            have h2 : (c :: t).dropWhile (· == c) =
                ((c :: t).dropWhile (· == c)).takeWhile (· == ' ') ++
                ((c :: t).dropWhile (· == c)).dropWhile (· == ' ') :=
              (List.takeWhile_append_dropWhile _ _).symm
            have h3 := headerTail_split hht
            have h4 := findCloserF_split hfc2
            conv_lhs => rw [h1, h2, h3, h4]
            simp [List.append_assoc]
          · exact absurd h (by simp)
        · exact absurd h (by simp)
      · exact absurd h (by simp)
    · exact absurd h (by simp)

/-- The raw text of a successful fence match ends with the code followed by
the opening run and trailing spaces: the closing marker is the opening
marker, character for character. -/
theorem matchFence_raw_shape {s : List Char} {fm : FMatch}
    (h : matchFence s = some fm) :
    3 ≤ fm.fence.length ∧
      ∃ u sp, (∀ x ∈ sp, x = ' ') ∧ fm.raw = u ++ fm.code ++ fm.fence ++ sp := by
  match s with
  | [] => simp [matchFence] at h
  | c :: t =>
    simp only [matchFence] at h
    split at h
    · split at h
      · rename_i hfc hlen
        split at h
        · rename_i ht hht
          split at h
          · rename_i code closer rest hfc2
            simp only [Option.some.injEq] at h
            subst h
            obtain ⟨sp, hsp, hcl⟩ := findCloserF_closer hfc2
            refine ⟨hlen, ?_⟩
            refine ⟨(c :: t).takeWhile (· == c) ++
              ((c :: t).dropWhile (· == c)).takeWhile (· == ' ') ++ ht.hdr, sp, hsp, ?_⟩
            simp only [hcl]
            simp [List.append_assoc]
          · exact absurd h (by simp)
        · exact absurd h (by simp)
      · exact absurd h (by simp)
    · exact absurd h (by simp)



/-- `dropLine` produces a suffix of its input. -/
theorem dropLine_suffix (s : List Char) : ∃ u, s = u ++ dropLine s := by
  refine ⟨s.takeWhile (· != '\n') ++ (s.dropWhile (· != '\n')).take 1, ?_⟩
  simp only [dropLine]
  rw [List.append_assoc, List.take_append_drop]
  exact (List.takeWhile_append_dropWhile _ _).symm

/-- Every match the scanner returns occupies a contiguous region of the
scanned text, and arises from a successful `matchFence`. -/
theorem scanFencesF_mem :
    ∀ {fuel : Nat} {s : List Char} {fm : FMatch}, fm ∈ scanFencesF fuel s →
      (∃ u v, s = u ++ fm.raw ++ v) ∧ ∃ s', matchFence s' = some fm
  | 0, s, fm, h => by simp [scanFencesF] at h
  | fuel + 1, s, fm, h => by
    match s with
    | [] => simp [scanFencesF] at h
    | c :: t =>
      simp only [scanFencesF] at h
      split at h
      · rename_i fm0 hm
        rw [List.mem_cons] at h
        rcases h with h | h
        · subst h
          exact ⟨⟨[], fm.rest, by simpa using matchFence_split hm⟩, _, hm⟩
        · obtain ⟨⟨u, v, huv⟩, hsrc⟩ := scanFencesF_mem h
          obtain ⟨w, hw⟩ := dropLine_suffix fm0.rest
          refine ⟨⟨fm0.raw ++ w ++ u, v, ?_⟩, hsrc⟩
          have h1 := matchFence_split hm
          rw [h1, hw, huv]
          simp [List.append_assoc]
      · obtain ⟨⟨u, v, huv⟩, hsrc⟩ := scanFencesF_mem h
        obtain ⟨w, hw⟩ := dropLine_suffix (c :: t)
        refine ⟨⟨w ++ u, v, ?_⟩, hsrc⟩
        rw [hw, huv]
        simp [List.append_assoc]

/-- Substring via `containsSub` agrees with the existence of a
decomposition. -/
theorem containsSub_iff (needle hay : List Char) :
    containsSub needle hay = true ↔ ∃ u v, hay = u ++ needle ++ v := by
  induction hay with
  | nil =>
    simp only [containsSub, List.isEmpty_iff]
    constructor
    · intro h
      exact ⟨[], [], by simp [h]⟩
    · rintro ⟨u, v, huv⟩
      rcases List.append_eq_nil.mp (List.append_eq_nil.mp huv.symm).1 with ⟨_, h2⟩
      exact h2
  | cons c t ih =>
    simp only [containsSub, Bool.or_eq_true, ih]
    constructor
    · rintro (h | ⟨u, v, huv⟩)
      · refine ⟨[], (c :: t).drop needle.length, ?_⟩
        conv_lhs => rw [← List.take_append_drop needle.length (c :: t)]
        rw [← beq_iff_eq.mp h]
        simp
      · exact ⟨c :: u, v, by simp [huv]⟩
    · rintro ⟨u, v, huv⟩
      match u with
      | [] =>
        left
        simp only [List.nil_append] at huv
        rw [huv]
        simp [List.take_left]
      | d :: u' =>
        right
        simp only [List.cons_append] at huv
        exact ⟨u', v, (List.cons.injEq .. ▸ huv).2⟩

/-- C1: the claim says the process-wide registry ends up binding the tags
`""`, `python`, `py`, `bash`, `yaml`, `yml` and `toml`, so that a check
entry point called with the default empty tag finds an executor.  The six
named tags are indeed bound, but line 384 rebinds `_executors` to a fresh
empty dict — discarding the first round of registrations, the only one that
bound `""` — and the empty tag is never re-registered, so `check_docstring`
with its default tag always raises the unsupported-language `LookupError`. -/
theorem c1_default_tag_lost :
    _executors.lookup "python" = some .execPythonFenceE ∧
    _executors.lookup "py" = some .execPythonFenceE ∧
    _executors.lookup "bash" = some .execBashFenceE ∧
    _executors.lookup "yaml" = some .execFileFenceE ∧
    _executors.lookup "yml" = some .execFileFenceE ∧
    _executors.lookup "toml" = some .execFileFenceE ∧
    _executors.lookup "" = none ∧
    executorsFirstRound.lookup "" = some .execPythonV1 ∧
    (check_docstring shell0 assignOnlyDoc "" initState).2 =
      .error (.lookupError (unsupportedMsg "")) :=
  ⟨rfl, rfl, rfl, rfl, rfl, rfl, rfl, rfl, rfl⟩

/-- C2: the claim says independent mode gives each fence a fresh, isolated
namespace.  It does not: `exec_python_fence` declares `globals: Dict = {}`,
and a Python default argument is created once, so every call that omits
`globals` shares one dict.  A name bound by the first fence is therefore
visible to the second (the document binding `a` then evaluating `a`
succeeds, while evaluating `a` in a fresh state raises `NameError`), and
the binding even persists into a later, separate document. -/
theorem c2_namespace_leaks :
    (check_raw_string shell0 c2doc "python" initState).2 =
      .ok ⟨[("a", .intV 1)]⟩ ∧
    (check_raw_string shell0 useOnlyDoc "python" initState).2 =
      .error (.nameError ("name " ++ sq ++ "a" ++ sq ++ " is not defined")) ∧
    (check_raw_string shell0 useOnlyDoc "python" ⟨[("a", .intV 1)]⟩).2 =
      .ok ⟨[("a", .intV 1)]⟩ :=
  ⟨rfl, rfl, rfl⟩

/-- C3: the claim says cumulative mode threads one namespace through each
fence in order.  In fact `check_raw_file_full` folds the extracted `Fence`
records into a single string via `f"{all_code}\n{b}"` and passes that
string to the executor, which immediately reads `.options` off it, so every
cumulative-mode run fails with `AttributeError` before any code executes. -/
theorem c3_cumulative_attribute_error :
    (check_md_file shell0 c2doc true "python" initState).2 =
      .error (.attributeError (strAttrErr "options")) ∧
    (check_raw_file_full shell0 assignOnlyDoc "python" initState).2 =
      .error (.attributeError (strAttrErr "options")) :=
  ⟨rfl, rfl⟩

/-- C4 counterexample: a block opened by three backticks is not closed by a
line of four backticks — the closer is the backreference `(?P=fence)`, so a
strictly longer line leaves a backtick where only spaces or the line end may
appear — and with no other closer the document yields no fence, where the
claim says the block is extracted. -/
theorem c4_counterexample : grab_fences "```\nx\n````\n" = [] := rfl

/-- C4 amended: the closing line of every extracted block consists of
exactly the opening fence run — same character, same count — optionally
followed by trailing spaces; a longer closing line does not terminate the
block (see the counterexample). -/
theorem c4_exact_closer (doc : String) (fm : FMatch) (h : fm ∈ scanFences doc.data) :
    3 ≤ fm.fence.length ∧
      ∃ u sp, (∀ x ∈ sp, x = ' ') ∧ fm.raw = u ++ fm.code ++ fm.fence ++ sp := by
  obtain ⟨_, s', hs⟩ := scanFencesF_mem h
  exact matchFence_raw_shape hs

/-- Witness for the amended C4 at the concrete document `docw`. -/
theorem c4_exact_closer_witness :
    3 ≤ fence4w.fence.length ∧
      ∃ u sp, (∀ x ∈ sp, x = ' ') ∧
        fence4w.raw = u ++ fence4w.code ++ fence4w.fence ++ sp :=
  c4_exact_closer docw fence4w (by decide)

/-- C5: the surviving redefinition of `grab_code_blocks` ignores its `lang`
argument and returns exactly the fences of `grab_fences`; consequently a
check entry point dispatches every fence of the document to the target
tag's executor, whatever each fence's own language is. -/
theorem c5_no_lang_filtering :
    (∀ (docstring lang : String), grab_code_blocks docstring lang = grab_fences docstring) ∧
    (∀ (shell : String → Int × String) (raw lang : String) (st : ModState) (ex : Executor),
      _executors.lookup lang = some ex →
      check_raw_string shell raw lang st = runFences shell ex (grab_fences raw) st) := by
  refine ⟨fun _ _ => rfl, ?_⟩
  intro shell raw lang st ex h
  simp only [check_raw_string, h]
  rfl

/-- Witness for C5: the python fences of `c2doc` are all dispatched to the
`yaml` executor when that tag is requested. -/
theorem c5_no_lang_filtering_witness :
    check_raw_string shell0 c2doc "yaml" initState =
      runFences shell0 .execFileFenceE (grab_fences c2doc) initState :=
  c5_no_lang_filtering.2 shell0 c2doc "yaml" initState .execFileFenceE rfl

/-- C6 counterexample: parsing `.a b a="v"` stores the class token `a`,
then the key/value token of the same name overwrites it; the stored kind
becomes `keyval` — the whole `Attr` is replaced — contradicting the claim
that only the value changes and the kind stays `class`.  (The position is
indeed kept: `a` stays before `b`.) -/
theorem c6_counterexample :
    Fence.attrs_from_str ".a b a=\"v\"" =
      [("a", ⟨some "v", "keyval"⟩), ("b", ⟨none, "keyval"⟩)] ∧
    ((Fence.attrs_from_str ".a b a=\"v\"").lookup "a").map Attr.type ≠ some "class" :=
  ⟨rfl, by decide⟩

/-- C6 amended: when a header string mentions the same name twice, the
resulting ordered mapping keeps the name at its original position, and the
later occurrence replaces the whole stored entry — value and kind alike. -/
theorem c6_overwrite_in_place (d : List (String × Attr)) (k : String) (a : Attr)
    (h : k ∈ d.map Prod.fst) :
    (odInsert k a d).map Prod.fst = d.map Prod.fst ∧
      (odInsert k a d).lookup k = some a := by
  induction d with
  | nil => simp at h
  | cons p t ih =>
    obtain ⟨k0, v0⟩ := p
    by_cases hk : k0 = k
    · subst hk
      simp [odInsert, List.lookup]
    · have h' : k ∈ t.map Prod.fst := by
        simp only [List.map_cons, List.mem_cons] at h
        rcases h with h | h
        · exact absurd h.symm hk
        · exact h
      have := ih h'
      simp only [odInsert, List.map_cons]
      rw [if_neg (by simpa using hk)]
      refine ⟨by simp [this.1], ?_⟩
      simp only [List.lookup]
      have hbk : (k == k0) = false := beq_eq_false_iff_ne.mpr (fun hkk => hk hkk.symm)
      rw [hbk]
      exact this.2

/-- Witness for the amended C6. -/
theorem c6_overwrite_in_place_witness :
    (odInsert "a" (⟨some "v", "keyval"⟩ : Attr)
        [("a", ⟨none, "class"⟩), ("b", ⟨none, "keyval"⟩)]).map Prod.fst =
      ([("a", (⟨none, "class"⟩ : Attr)), ("b", ⟨none, "keyval"⟩)]).map Prod.fst ∧
    (odInsert "a" (⟨some "v", "keyval"⟩ : Attr)
        [("a", ⟨none, "class"⟩), ("b", ⟨none, "keyval"⟩)]).lookup "a" =
      some ⟨some "v", "keyval"⟩ :=
  c6_overwrite_in_place [("a", ⟨none, "class"⟩), ("b", ⟨none, "keyval"⟩)] "a"
    ⟨some "v", "keyval"⟩ (by decide)

/-- C7: every `Fence` produced by `grab_fences` carries a `raw` field equal,
character for character, to a contiguous substring of the document (the text
matched for that block, both fence-marker lines included). -/
theorem c7_raw_round_trip (doc : String) (f : Fence) (h : f ∈ grab_fences doc) :
    ∃ r, f.raw = some r ∧ ∃ u v, doc.data = u ++ r.data ++ v := by
  simp only [grab_fences, List.mem_map] at h
  obtain ⟨fm, hfm, hf⟩ := h
  obtain ⟨⟨u, v, huv⟩, _⟩ := scanFencesF_mem hfm
  exact ⟨String.mk fm.raw, by rw [← hf]; rfl, u, v, huv⟩

/-- Witness for C7 at the concrete document `docw7`. -/
theorem c7_raw_round_trip_witness :
    ∃ r, fencew7.raw = some r ∧ ∃ u v, docw7.data = u ++ r.data ++ v :=
  c7_raw_round_trip docw7 fencew7 (by decide)

/-- C8: looking up any unregistered tag makes each of the three check entry
points raise the unsupported-language `LookupError`, whose message contains
the tag itself and names `register_executor`. -/
theorem c8_unknown_tag (lang : String) (h : _executors.lookup lang = none) :
    (∀ (shell : String → Int × String) (doc : String) (st : ModState),
      (check_docstring shell doc lang st).2 =
        .error (.lookupError (unsupportedMsg lang))) ∧
    (∀ (shell : String → Int × String) (raw : String) (st : ModState),
      (check_raw_string shell raw lang st).2 =
        .error (.lookupError (unsupportedMsg lang))) ∧
    (∀ (shell : String → Int × String) (raw : String) (st : ModState),
      (check_raw_file_full shell raw lang st).2 =
        .error (.lookupError (unsupportedMsg lang))) ∧
    (∃ u v, (unsupportedMsg lang).data = u ++ lang.data ++ v) ∧
    (∃ u v, (unsupportedMsg lang).data = u ++ "register_executor".data ++ v) := by
  refine ⟨?_, ?_, ?_, ?_, ?_⟩
  · intro shell doc st
    simp only [check_docstring, h]
  · intro shell raw st
    simp only [check_raw_string, h]
  · intro shell raw st
    simp only [check_raw_file_full, h]
  · refine ⟨[], (hintHead ++ "register_executor").data, ?_⟩
    simp only [unsupportedMsg, List.nil_append]
    rw [show (hintHead ++ "register_executor" : String) =
      " is not a supported language to check\n\tHint: you can add support for any language by using register_executor" from rfl]
    exact String.data_append ..
  · refine ⟨lang.data ++ hintHead.data, [], ?_⟩
    simp only [unsupportedMsg, List.append_nil, List.append_assoc]
    rw [← String.data_append, ← String.data_append]
    rw [show (hintHead ++ "register_executor" : String) =
      " is not a supported language to check\n\tHint: you can add support for any language by using register_executor" from rfl]

/-- Witness for C8 at the unregistered tag `julia`. -/
theorem c8_unknown_tag_witness :
    (check_docstring shell0 assignOnlyDoc "julia" initState).2 =
      .error (.lookupError (unsupportedMsg "julia")) :=
  (c8_unknown_tag "julia" rfl).1 shell0 assignOnlyDoc initState

/-- C9 counterexample: invoked on a fence carrying no `title` option or
attribute, the file-writing executor fails by passing `None` to `open`, and
the resulting `TypeError` message does not contain the missing name
`title` — contradicting the claim that the failure identifies it. -/
theorem c9_counterexample :
    exec_file_fence (.fenceV noTitleFence) = ([], .error (.typeError openNoneMsg)) ∧
    containsSub "title".data openNoneMsg.data = false ∧
    ¬ ∃ u v, openNoneMsg.data = u ++ "title".data ++ v := by
  refine ⟨rfl, rfl, fun hex => ?_⟩
  exact absurd ((containsSub_iff "title".data openNoneMsg.data).mpr hex) (by decide)

/-- C9 amended: without a resolvable `title` the executor fails — but with a
`TypeError` from `open(None, "w")` whose message does not name `title`;
when a truthy `title` is present its value names the file and the fence
contents are written to it verbatim. -/
theorem c9_missing_title (f : Fence) :
    (execFileFname f = none →
      exec_file_fence (.fenceV f) = ([], .error (.typeError openNoneMsg)) ∧
        containsSub "title".data openNoneMsg.data = false) ∧
    (∀ n, execFileFname f = some n → n.isEmpty = false →
      exec_file_fence (.fenceV f) = ([.fileWrite n f.contents], .ok ())) := by
  constructor
  · intro h
    refine ⟨?_, rfl⟩
    simp [exec_file_fence, h]
  · intro n h hne
    simp [exec_file_fence, h, hne]

/-- Witness for the amended C9: the fence without a title fails with the
TypeError, the fence with `title="out.yaml"` writes its contents there. -/
theorem c9_missing_title_witness :
    (exec_file_fence (.fenceV noTitleFence) = ([], .error (.typeError openNoneMsg)) ∧
      containsSub "title".data openNoneMsg.data = false) ∧
    exec_file_fence (.fenceV titledFence) =
      ([.fileWrite "out.yaml" titledFence.contents], .ok ()) :=
  ⟨(c9_missing_title noTitleFence).1 rfl,
   (c9_missing_title titledFence).2 "out.yaml" rfl (by decide)⟩

/-- C10: `Fence.from_str` anchors the match at the very first character, so
any input whose first character is not a fence character — in particular a
valid fence preceded by any other text — and any input that is not a
complete well-formed block (for example an unterminated fence) raises the
`AttributeError` from reading `.groups()` off `None`; a `Fence` is returned
exactly when the anchored match succeeds, never a sentinel. -/
theorem c10_from_str_anchored :
    (∀ (s : String) (c : Char) (t : List Char), s.data = c :: t →
      ¬(c = backquote ∨ c = '~') →
      Fence.from_str s = .error (.attributeError noneGroupsMsg)) ∧
    (∀ s : String, (∃ f, Fence.from_str s = .ok f) ↔ (matchFence s.data).isSome = true) ∧
    Fence.from_str ("Intro text.\n" ++ "```python\nx = 1\n```\n") =
      .error (.attributeError noneGroupsMsg) ∧
    Fence.from_str "```python\nx = 1\n" = .error (.attributeError noneGroupsMsg) := by
  refine ⟨?_, ?_, rfl, rfl⟩
  · intro s c t hdata hc
    push_neg at hc
    simp only [Fence.from_str, hdata, matchFence]
    rw [if_neg (by simp [hc.1, hc.2])]
  · intro s
    cases h : matchFence s.data <;> simp [Fence.from_str, h]

/-- Witness for C10: text before a perfectly well-formed fence still makes
`Fence.from_str` raise. -/
theorem c10_from_str_anchored_witness :
    Fence.from_str "text ```\nfoo\n```\n" = .error (.attributeError noneGroupsMsg) :=
  c10_from_str_anchored.1 "text ```\nfoo\n```\n" 't' "ext ```\nfoo\n```\n".data rfl
    (by decide)

end Mktestdocs
